import Mathlib

/-!
Shallow embedding of the monthly S&P-500 momentum pipeline of this
repository (`src/backtest.py` and `src/screener.py`).  Pandas/NumPy cells
are modelled by `Option ℚ` (`none` is NaN); dataframe columns are Lean
lists.  NaN propagation and the pandas NaN-comparison convention
(`NaN cmp x` is `False`) are made explicit in the cell operations.
-/

namespace MonthlyTrader

/-- A pandas cell; `none` models NaN. -/
abbrev Cell := Option ℚ

/-- `c > 0` as pandas evaluates it: a NaN comparison is `False`. -/
def cellPos : Cell → Bool
  | some v => decide (0 < v)
  | none => false

/-- `c < t` as pandas evaluates it: a NaN comparison is `False`. -/
def cellLt : Cell → ℚ → Bool
  | some v, t => decide (v < t)
  | none, _ => false

/-- Modelled from the spec: `tools.roc` is imported by both source files but
the `tools` module is not part of the repository snapshot.  Spec §4.3 step 1:
`roc_h[m] = close[m]/close[m-h] - 1`, undefined for the first `h` months. -/
def rocAt (close : List ℚ) (h m : ℕ) : Cell :=
  if h ≤ m ∧ m < close.length then some (close.getD m 0 / close.getD (m - h) 0 - 1)
  else none

/-- `changes.rolling(h).sum()` at row `m`: the sum of the `h` monthly
net-direction values ending at `m`, NaN until `h` observations exist
(src/backtest.py line 134, src/screener.py line 115). -/
def rollingSumAt (changes : List ℚ) (h m : ℕ) : Cell :=
  if h ≤ m + 1 ∧ m < changes.length then some (((changes.drop (m + 1 - h)).take h).sum)
  else none

/-- `col.shift(-1)` on a column of length `n`: row `m` takes row `m+1`'s
value; the last row becomes NaN. -/
def shiftUp (col : ℕ → Cell) (n m : ℕ) : Cell :=
  if m + 1 < n then col (m + 1) else none

/-- The `np.where` step of `momentum`: where `(roc > 0) & (changes_h > 0)`,
`changes_h + roc / 1000`, otherwise `changes_h` unchanged (src/backtest.py
lines 135-139, src/screener.py lines 116-120). -/
def whereScore (r d : Cell) : Cell :=
  if cellPos r && cellPos d then some (d.getD 0 + r.getD 0 / 1000) else d

/-- Backtest `momentum` (src/backtest.py lines 131-140): the `changes_h`
score cell at row `m`; both `roc` and the rolling direction count are
shifted one month earlier by `shift(-1)`. -/
def backtestScore (close changes : List ℚ) (h m : ℕ) : Cell :=
  whereScore (shiftUp (rocAt close h) close.length m)
    (shiftUp (rollingSumAt changes h) changes.length m)

/-- Screener `momentum` (src/screener.py lines 112-121): as in the backtest
but with `roc` left unshifted. -/
def screenerScore (close changes : List ℚ) (h m : ℕ) : Cell :=
  whereScore (rocAt close h m) (shiftUp (rollingSumAt changes h) changes.length m)

/-- The composite-score formula in the words of the claim (spec §4.3 step 4),
on the aligned cells: direction count plus `roc/1000` when both cells are
defined and strictly positive, the direction count alone otherwise. -/
def specScore (r d : Cell) : Cell :=
  match r, d with
  | some rv, some dv => if 0 < rv ∧ 0 < dv then some (dv + rv / 1000) else some dv
  | _, _ => d

/-- Linear interpolation at position `p` into the ascending order statistics
`s` — the default `numpy`/`pandas` quantile interpolation step. -/
def interpAt (s : List ℚ) (p : ℚ) : ℚ :=
  s.getD (⌊p⌋).toNat 0 +
    (p - ⌊p⌋) * (s.getD ((⌊p⌋).toNat + 1) (s.getD (⌊p⌋).toNat 0) - s.getD (⌊p⌋).toNat 0)

/-- `Series.quantile(q)` with the default linear interpolation, applied to the
defined (non-NaN) values: NaN on an empty series, otherwise interpolation at
position `q * (n - 1)` over the ascending sorted values (src/backtest.py
line 206, src/screener.py line 176). -/
def pandasQuantile (q : ℚ) (xs : List ℚ) : Option ℚ :=
  match xs with
  | [] => none
  | _ :: _ => some (interpAt (List.insertionSort (· ≤ ·) xs) (q * ((xs.length - 1 : ℕ) : ℚ)))

/-- The defined (non-NaN) cells of one month's cross-section row. -/
def definedCells (row : List (String × Cell)) : List ℚ :=
  row.filterMap Prod.snd

/-- The low-momentum exclusion of `prepare_stocks` for one month's
cross-section and one horizon, at cutoff quantile `q`: the symbols whose
score is strictly below the `q`-quantile of the defined scores
(src/backtest.py lines 196-210, src/screener.py lines 166-180). -/
def lowMomentumExcludedQ (q : ℚ) (row : List (String × Cell)) : List String :=
  match pandasQuantile q (definedCells row) with
  | none => []
  | some t => (row.filter (fun p => cellLt p.2 t)).map Prod.fst

/-- `QUANTILE_LOW_MOMENTUM = 0.15` in both source files. -/
def QUANTILE_LOW_MOMENTUM : ℚ := 15 / 100

/-- The low-momentum exclusion at the cutoff used by the code. -/
def lowMomentumExcluded (row : List (String × Cell)) : List String :=
  lowMomentumExcludedQ QUANTILE_LOW_MOMENTUM row

/-- `MAX_STOCKS = 10` in both source files. -/
def MAX_STOCKS : ℕ := 10

/-- `row.dropna()` restricted to the symbol cells of a cross-section row. -/
def dropna (row : List (String × Cell)) : List (String × ℚ) :=
  row.filterMap (fun p => p.2.map (fun v => (p.1, v)))

/-- The ascending sort key of `df.sort_values("beta")`. -/
def byScore (a b : String × ℚ) : Prop := a.2 ≤ b.2

instance : DecidableRel byScore := fun a b => inferInstanceAs (Decidable (a.2 ≤ b.2))

instance : IsTotal (String × ℚ) byScore := ⟨fun a b => le_total a.2 b.2⟩

instance : IsTrans (String × ℚ) byScore := ⟨fun _ _ _ hab hbc => le_trans hab hbc⟩

/-- `df = df[df.beta > 0]` after `dropna` (src/backtest.py line 246): the
symbols whose score cell is defined and strictly positive. -/
def eligibleScores (row : List (String × Cell)) : List (String × ℚ) :=
  (dropna row).filter (fun p => decide (0 < p.2))

/-- `df.sort_values("beta")` on the eligible symbols. -/
def sortedEligible (row : List (String × Cell)) : List (String × ℚ) :=
  List.insertionSort byScore (eligibleScores row)

/-- `get_top_stocks` (src/backtest.py lines 243-248): keep the symbols with a
defined, strictly positive score, sort ascending by score, and return the
last `MAX_STOCKS` (`tail(MAX_STOCKS)`) symbols. -/
def get_top_stocks (row : List (String × Cell)) : List String :=
  ((sortedEligible row).drop ((sortedEligible row).length - MAX_STOCKS)).map Prod.fst

/-- One row of the final monthly table `changes[12]`: the index month label,
the index close, the 150-day SMA cell (sampled at month end), and one
`score_12` cell per symbol. -/
structure IndexMonthRow where
  month : ℕ
  Close : ℚ
  sma : Cell
  cells : List (String × Cell)

/-- The market-regime gate of the backtest loop (src/backtest.py line 258):
`Close > sma`, which is `False` when the SMA cell is NaN. -/
def regimeGate (row : IndexMonthRow) : Bool :=
  match row.sma with
  | some v => decide (v < row.Close)
  | none => false

/-- One month of the backtest selection loop (src/backtest.py lines 257-269):
symbols are selected only when the regime gate passes and the month is not
the most recent month of the table; otherwise nothing is selected. -/
def selectMonth (row : IndexMonthRow) (isCurrentMonth : Bool) : List String :=
  if regimeGate row && !isCurrentMonth then get_top_stocks row.cells else []

/-- A concrete cross-section row used by the selector witness. -/
def sampleRow : IndexMonthRow :=
  ⟨0, 100, some 90, [("a", some 2), ("b", some 1), ("c", none), ("d", some (-3))]⟩

/-- A per-symbol monthly dataframe for the screener: month keys with the
monthly close and monthly net-direction (`changes`) columns, positionally
aligned (the output shape of `resample_stocks_to_month` in src/screener.py). -/
structure MonthlySeries where
  months : List ℕ
  closes : List ℚ
  changes : List ℚ
deriving DecidableEq

/-- The screener `changes_h` score column of one symbol, one cell per row. -/
def screenerScoreCol (s : MonthlySeries) (h : ℕ) : List Cell :=
  (List.range s.months.length).map (fun m => screenerScore s.closes s.changes h m)

/-- The left-join of a month-keyed column onto index month `M`
(`changes[period].merge(..., how="left")` in `prepare_stocks`): NaN when the
month is absent from the symbol's rows. -/
def lookupMonth : List ℕ → List Cell → ℕ → Cell
  | m :: ms, v :: vs, M => if m = M then v else lookupMonth ms vs M
  | _, _, _ => none

/-- The symbol's `changes_12` cell in the cross-section row of index month `M`. -/
def screenerScoreAt (s : MonthlySeries) (M : ℕ) : Cell :=
  lookupMonth s.months (screenerScoreCol s 12) M

/-- Screener Differ, added set (src/screener.py line 225). -/
def addedStocks (current next : List String) : List String :=
  next.filter (fun s => decide (s ∉ current))

/-- Screener Differ, removed set (src/screener.py line 224). -/
def removedStocks (current next : List String) : List String :=
  current.filter (fun s => decide (s ∉ next))

/-- A concrete one-symbol universe used by the C4 witness. -/
def sampleStocks : List (String × MonthlySeries) :=
  [("aapl", ⟨[0, 1], [10, 11], [1, 1]⟩)]

/-- One cleaned daily input row of `resample_stocks_to_month`: the trading
date, its calendar-month label, the daily open/close, and the derived `beta`
and `changes` cells. -/
structure DailyRow where
  date : ℕ
  month : ℕ
  Open : ℚ
  Close : ℚ
  beta : Cell
  changes : Cell
deriving DecidableEq

/-- One output row of `resample_stocks_to_month`. -/
structure MonthRow where
  month : ℕ
  Date : ℕ
  Open : ℚ
  Close : ℚ
  beta : Cell
  changes : ℚ
deriving DecidableEq

/-- The `groupby("month").agg(...)` of `resample_stocks_to_month`
(src/backtest.py lines 95-101, src/screener.py lines 75-81): within the
month's group, in dataframe row order, `Date`/`Close`/`beta` take the last
row, `Open` the first row and `changes` the NaN-skipping sum. -/
def aggMonth (rows : List DailyRow) (m : ℕ) : Option MonthRow :=
  match hg : rows.filter (fun r => decide (r.month = m)) with
  | [] => none
  | r :: rs =>
    some ⟨m, ((r :: rs).getLast (List.cons_ne_nil r rs)).date, r.Open,
      ((r :: rs).getLast (List.cons_ne_nil r rs)).Close,
      ((r :: rs).getLast (List.cons_ne_nil r rs)).beta,
      ((r :: rs).filterMap (fun x => x.changes)).sum⟩

/-- `resample_stocks_to_month`: one aggregated row per distinct month label,
months in ascending order (pandas `groupby` sorts its keys). -/
def resample_stocks_to_month (rows : List DailyRow) : List MonthRow :=
  (List.insertionSort (· ≤ ·) (rows.map (fun r => r.month)).dedup).filterMap (aggMonth rows)

/-- Two one-month rows in chronological order, used by the C8 theorems. -/
def dayA : DailyRow := ⟨1, 0, 10, 5, none, none⟩

/-- The second, later trading day of the same month. -/
def dayB : DailyRow := ⟨2, 0, 20, 7, none, none⟩

/-- `SP_500_stocks.get_symbols` (src/backtest.py lines 32-38): when no
snapshot file was loaded (`self.df is None`) it returns Python `None`;
otherwise the ticker list of the latest snapshot dated at or before the
query date (`none` also models the `IndexError` of `values[0]` when no
snapshot is old enough). -/
def get_symbols (tbl : Option (List (ℕ × List String))) (snap : ℕ) : Option (List String) :=
  match tbl with
  | none => none
  | some rows => ((rows.filter (fun r => decide (r.1 ≤ snap))).getLast?).map (fun r => r.2)

/-- One scored per-symbol monthly row at the point where the Universe
Restrictor runs (after `momentum` added the `changes_h` columns). -/
structure ScoredRow where
  month : ℕ
  Open : ℚ
  Close : ℚ
  beta : Cell
  changes_3 : Cell
  changes_6 : Cell
  changes_9 : Cell
  changes_12 : Cell
deriving DecidableEq, Inhabited

/-- `df.loc[df.month == m, c] = np.nan` for `beta` and all four `changes_h`
columns (src/backtest.py lines 166-168), applied to one row. -/
def maskRow (r : ScoredRow) : ScoredRow :=
  ⟨r.month, r.Open, r.Close, none, none, none, none, none⟩

/-- One index month of the restriction: a non-member symbol has the cells of
that month's rows set to NaN; a member symbol's rows are untouched. -/
def restrictMonth (members : List String) (sym : String) (m : ℕ)
    (rows : List ScoredRow) : List ScoredRow :=
  if sym ∈ members then rows
  else rows.map (fun r => if r.month = m then maskRow r else r)

/-- The Universe Restrictor loop (src/backtest.py lines 160-169), viewed for
one symbol: iterate over the index months looking the membership up per
month.  A missing snapshot table makes `get_symbols` return `None`, and the
list comprehension over `None` raises `TypeError` — the error branch. -/
def restrictSymbol (tbl : Option (List (ℕ × List String))) (months : List ℕ)
    (sym : String) (rows : List ScoredRow) : Except String (List ScoredRow) :=
  match months with
  | [] => Except.ok rows
  | m :: ms =>
    match get_symbols tbl m with
    | none => Except.error "TypeError: NoneType object is not iterable"
    | some members => restrictSymbol tbl ms sym (restrictMonth members sym m rows)

/-- Whether the restrictor masks month `m` for symbol `sym`: `m` is an index
month and `sym` is not in the membership as of `m`. -/
def maskedAt (tbl : Option (List (ℕ × List String))) (months : List ℕ)
    (sym : String) (m : ℕ) : Bool :=
  decide (m ∈ months) &&
    (match get_symbols tbl m with
     | some members => decide (sym ∉ members)
     | none => false)

/-- The membership snapshot table used by the C7 witness. -/
def memberTable : List (ℕ × List String) := [(0, ["aapl"]), (5, ["msft"])]

/-- The scored rows used by the C7 witness. -/
def memberRows : List ScoredRow :=
  [⟨3, 1, 2, some 1, some 1, some 1, some 1, some 1⟩,
   ⟨7, 1, 2, some 1, some 1, some 1, some 1, some 1⟩]

/-- The expected restrictor output for the C7 witness: the month-7 row is
masked because "aapl" left the membership at the month-5 snapshot. -/
def memberOut : List ScoredRow :=
  [⟨3, 1, 2, some 1, some 1, some 1, some 1, some 1⟩,
   ⟨7, 1, 2, none, none, none, none, none⟩]

/-- NumPy `astype(int)`: truncation toward zero. -/
def astypeInt (q : ℚ) : ℤ :=
  q.num.tdiv (q.den : ℤ)

/-- Lookup of an execution month in a symbol's monthly bars
(`df_month.loc[position.month]`): `none` is the `KeyError` case. -/
def monthBar : List (ℕ × ℚ × ℚ) → ℕ → Option (ℚ × ℚ)
  | [], _ => none
  | b :: bs, m => if b.1 = m then some b.2 else monthBar bs m

/-- Lookup of a symbol in the downloaded bar mapping (`stocks[symbol]`). -/
def findBars : List (String × List (ℕ × ℚ × ℚ)) → String → List (ℕ × ℚ × ℚ)
  | [], _ => []
  | b :: bs, sym => if b.1 = sym then b.2 else findBars bs sym

/-- One position after the `try/except`-guarded fill loop (src/backtest.py
lines 284-300): the selected (month, symbol) plus the execution month's
(open, close) when the lookup hits, and NaN cells when it misses — the
swallowed `KeyError` leaves the row unfilled. -/
def fillPosition (bars : List (String × List (ℕ × ℚ × ℚ))) (p : ℕ × String) :
    (ℕ × String) × Option (ℚ × ℚ) :=
  (p, monthBar (findBars bars p.2) p.1)

/-- The unguarded portfolio arithmetic of `__main__` (src/backtest.py lines
304-309): `(10_000 / portfolio.buy).astype(int)` raises `IntCastingNaNError`
as soon as any `buy` cell is NaN; otherwise each position is sized
`shares = int(10000 / open)` with `invest = shares * open` and
`proceeds = shares * close`. -/
def simulate (bars : List (String × List (ℕ × ℚ × ℚ))) (sel : List (ℕ × String)) :
    Except String (List (ℕ × String × ℤ × ℚ × ℚ)) :=
  if (sel.map (fillPosition bars)).all (fun p => p.2.isSome) then
    Except.ok ((sel.map (fillPosition bars)).map (fun p =>
      match p.2 with
      | some bc => (p.1.1, p.1.2, astypeInt (10000 / bc.1),
          (astypeInt (10000 / bc.1) : ℚ) * bc.1, (astypeInt (10000 / bc.1) : ℚ) * bc.2)
      | none => (p.1.1, p.1.2, 0, 0, 0)))
  else Except.error "IntCastingNaNError"

/-- Bar data used by the C6 evaluation: "aapl" has bars only for month 5,
with open 25 and close 30. -/
def sampleBars : List (String × List (ℕ × ℚ × ℚ)) := [("aapl", [(5, 25, 30)])]

/-- One raw daily bar as returned by the data source; any field may be NaN. -/
structure RawBar where
  Open : Cell
  High : Cell
  Low : Cell
  Close : Cell
deriving DecidableEq

/-- Pandas elementwise `==` under NaN: a NaN comparison is `False`. -/
def cellEq : Cell → Cell → Bool
  | some x, some y => decide (x = y)
  | _, _ => false

/-- The bar cleaning of `get_stocks`: drop rows with `High == Low`, then
`dropna()` (src/backtest.py lines 73-78). -/
def cleanBars (bars : List RawBar) : List RawBar :=
  (bars.filter (fun b => !(cellEq b.High b.Low))).filter
    (fun b => b.Open.isSome && b.High.isSome && b.Low.isSome && b.Close.isSome)

/-- `get_stocks` (src/backtest.py lines 67-88): clean each symbol's bars,
keep the nonempty series under the lower-cased symbol, then
`dfs.pop("googl")` removes that key unconditionally. -/
def get_stocks (raw : List (String × List RawBar)) : List (String × List RawBar) :=
  (raw.filterMap (fun p =>
    if (cleanBars p.2).isEmpty then none else some (p.1.toLower, cleanBars p.2))).filter
    (fun p => !(p.1 == "googl"))

lemma whereScore_eq_specScore (r d : Cell) : whereScore r d = specScore r d := by
  cases r with
  | none => simp [whereScore, specScore, cellPos]
  | some rv =>
    cases d with
    | none => simp [whereScore, specScore, cellPos]
    | some dv =>
      by_cases h1 : 0 < rv <;> by_cases h2 : 0 < dv <;>
        simp [whereScore, specScore, cellPos, h1, h2]

/-- C1: for every monthly series and every horizon `h ∈ {3, 6, 9, 12}`, in
both the backtest scorer and the screener scorer the composite score of a
month equals the aligned trailing direction count plus `roc_h / 1000` when
both aligned cells are strictly positive, and equals the aligned direction
count alone otherwise — in particular whenever either cell is undefined. -/
theorem c1_composite_score (close changes : List ℚ) (h m : ℕ)
    (hmem : h ∈ [3, 6, 9, 12]) :
    backtestScore close changes h m =
      specScore (shiftUp (rocAt close h) close.length m)
        (shiftUp (rollingSumAt changes h) changes.length m) ∧
    screenerScore close changes h m =
      specScore (rocAt close h m) (shiftUp (rollingSumAt changes h) changes.length m) :=
  ⟨whereScore_eq_specScore _ _, whereScore_eq_specScore _ _⟩

/-- Witness for C1 at a concrete four-month series and horizon 3. -/
theorem c1_composite_score_witness :
    (3 ∈ [3, 6, 9, 12]) ∧
    (backtestScore [10, 11, 12, 13] [1, 1, 1, 1] 3 2 =
      specScore (shiftUp (rocAt [10, 11, 12, 13] 3) 4 2)
        (shiftUp (rollingSumAt [1, 1, 1, 1] 3) 4 2) ∧
     screenerScore [10, 11, 12, 13] [1, 1, 1, 1] 3 2 =
      specScore (rocAt [10, 11, 12, 13] 3 2)
        (shiftUp (rollingSumAt [1, 1, 1, 1] 3) 4 2)) :=
  ⟨by decide, c1_composite_score [10, 11, 12, 13] [1, 1, 1, 1] 3 2 (by decide)⟩

lemma mem_lowMomentumExcludedQ {q : ℚ} {row : List (String × Cell)} {s : String} :
    s ∈ lowMomentumExcludedQ q row ↔
      ∃ v t, (s, some v) ∈ row ∧ pandasQuantile q (definedCells row) = some t ∧ v < t := by
  unfold lowMomentumExcludedQ
  cases e : pandasQuantile q (definedCells row) with
  | none =>
    simp only [List.not_mem_nil, false_iff]
    rintro ⟨v, t, _, ht, _⟩
    exact Option.noConfusion ht
  | some t =>
    simp only [List.mem_map, List.mem_filter]
    constructor
    · rintro ⟨⟨s1, c⟩, ⟨hmem, hlt⟩, rfl⟩
      cases c with
      | none => exact absurd hlt (by simp [cellLt])
      | some v => exact ⟨v, t, hmem, rfl, by simpa [cellLt] using hlt⟩
    · rintro ⟨v, t1, hmem, ht1, hlt⟩
      have : t1 = t := (Option.some_inj.mp ht1).symm
      subst this
      exact ⟨(s, some v), ⟨hmem, by simpa [cellLt] using hlt⟩, rfl⟩

lemma getD_mono_of_sorted {s : List ℚ} (hs : List.Sorted (· ≤ ·) s)
    {i j : ℕ} (hij : i ≤ j) (hj : j < s.length) : s.getD i 0 ≤ s.getD j 0 := by
  have hi : i < s.length := lt_of_le_of_lt hij hj
  rcases eq_or_lt_of_le hij with rfl | hlt
  · exact le_refl _
  · have hrel := List.pairwise_iff_get.mp hs ⟨i, hi⟩ ⟨j, hj⟩ hlt
    rw [List.getD_eq_getElem s 0 hi, List.getD_eq_getElem s 0 hj]
    simpa [List.get_eq_getElem] using hrel

lemma getD_succ_self_le {s : List ℚ} (hs : List.Sorted (· ≤ ·) s)
    {i : ℕ} (hin : i < s.length) : s.getD i 0 ≤ s.getD (i + 1) (s.getD i 0) := by
  by_cases hr : i + 1 < s.length
  · rw [List.getD_eq_getElem s _ hr, ← List.getD_eq_getElem s 0 hr]
    exact getD_mono_of_sorted hs (Nat.le_succ i) hr
  · rw [List.getD_eq_default _ _ (le_of_not_lt hr)]

lemma le_interpAt {s : List ℚ} (hs : List.Sorted (· ≤ ·) s) {p : ℚ}
    (hin : (⌊p⌋).toNat < s.length) : s.getD (⌊p⌋).toNat 0 ≤ interpAt s p := by
  unfold interpAt
  have hfrac : 0 ≤ p - ⌊p⌋ := sub_nonneg.mpr (Int.floor_le p)
  have hlohi := getD_succ_self_le hs hin
  nlinarith [mul_nonneg hfrac (sub_nonneg.mpr hlohi)]

lemma interpAt_le_next {s : List ℚ} (hs : List.Sorted (· ≤ ·) s) {p : ℚ}
    (hnext : (⌊p⌋).toNat + 1 < s.length) :
    interpAt s p ≤ s.getD ((⌊p⌋).toNat + 1) 0 := by
  unfold interpAt
  have hfrac0 : 0 ≤ p - ⌊p⌋ := sub_nonneg.mpr (Int.floor_le p)
  have hfrac1 : p - ⌊p⌋ < 1 := by
    have := Int.lt_floor_add_one p
    linarith
  have hd : s.getD ((⌊p⌋).toNat + 1) (s.getD (⌊p⌋).toNat 0) = s.getD ((⌊p⌋).toNat + 1) 0 := by
    rw [List.getD_eq_getElem s _ hnext, List.getD_eq_getElem s 0 hnext]
  rw [hd]
  have hle : s.getD (⌊p⌋).toNat 0 ≤ s.getD ((⌊p⌋).toNat + 1) 0 :=
    getD_mono_of_sorted hs (Nat.le_succ _) hnext
  nlinarith [mul_nonneg (by linarith : (0:ℚ) ≤ 1 - (p - ⌊p⌋)) (sub_nonneg.mpr hle)]

lemma interpAt_mono {s : List ℚ} (hs : List.Sorted (· ≤ ·) s) (hne : s ≠ [])
    {p1 p2 : ℚ} (h0 : 0 ≤ p1) (h12 : p1 ≤ p2) (h2 : p2 ≤ ((s.length - 1 : ℕ) : ℚ)) :
    interpAt s p1 ≤ interpAt s p2 := by
  have hlen : 1 ≤ s.length := List.length_pos.mpr hne
  have hf0 : (0:ℤ) ≤ ⌊p1⌋ := Int.floor_nonneg.mpr h0
  have hf02 : (0:ℤ) ≤ ⌊p2⌋ := le_trans hf0 (Int.floor_mono h12)
  have hi2k : ⌊p2⌋ ≤ ((s.length - 1 : ℕ) : ℤ) := by
    have := Int.floor_mono h2
    rwa [Int.floor_natCast] at this
  have hi2n : (⌊p2⌋).toNat < s.length := by omega
  have hi12 : (⌊p1⌋).toNat ≤ (⌊p2⌋).toNat := Int.toNat_le_toNat (Int.floor_mono h12)
  rcases eq_or_lt_of_le hi12 with heq | hlt
  · have hfe : ⌊p1⌋ = ⌊p2⌋ := by omega
    unfold interpAt
    rw [heq, hfe]
    have hlohi := getD_succ_self_le hs hi2n
    nlinarith [mul_nonneg (sub_nonneg.mpr h12) (sub_nonneg.mpr hlohi)]
  · have hnext : (⌊p1⌋).toNat + 1 < s.length := by omega
    calc interpAt s p1 ≤ s.getD ((⌊p1⌋).toNat + 1) 0 := interpAt_le_next hs hnext
      _ ≤ s.getD (⌊p2⌋).toNat 0 := getD_mono_of_sorted hs (by omega) hi2n
      _ ≤ interpAt s p2 := le_interpAt hs hi2n

lemma pandasQuantile_mono {xs : List ℚ} {q1 q2 : ℚ} (h0 : 0 ≤ q1) (h12 : q1 ≤ q2)
    (h1 : q2 ≤ 1) {t1 t2 : ℚ} (e1 : pandasQuantile q1 xs = some t1)
    (e2 : pandasQuantile q2 xs = some t2) : t1 ≤ t2 := by
  cases xs with
  | nil => exact Option.noConfusion e1
  | cons x xs1 =>
    have e1' : interpAt (List.insertionSort (· ≤ ·) (x :: xs1))
        (q1 * (((x :: xs1).length - 1 : ℕ) : ℚ)) = t1 := Option.some_inj.mp e1
    have e2' : interpAt (List.insertionSort (· ≤ ·) (x :: xs1))
        (q2 * (((x :: xs1).length - 1 : ℕ) : ℚ)) = t2 := Option.some_inj.mp e2
    set s := List.insertionSort (· ≤ ·) (x :: xs1) with hsdef
    have hsort : List.Sorted (· ≤ ·) s := List.sorted_insertionSort _ _
    have hlen : s.length = (x :: xs1).length := (List.perm_insertionSort _ _).length_eq
    have hne : s ≠ [] := by
      intro h
      rw [h] at hlen
      simp at hlen
    have hk : (0:ℚ) ≤ (((x :: xs1).length - 1 : ℕ) : ℚ) := Nat.cast_nonneg _
    rw [← e1', ← e2']
    apply interpAt_mono hsort hne (mul_nonneg h0 hk) (mul_le_mul_of_nonneg_right h12 hk)
    rw [hlen]
    calc q2 * (((x :: xs1).length - 1 : ℕ) : ℚ)
        ≤ 1 * (((x :: xs1).length - 1 : ℕ) : ℚ) := mul_le_mul_of_nonneg_right h1 hk
      _ = (((x :: xs1).length - 1 : ℕ) : ℚ) := one_mul _

lemma length_filter_mono {α : Type} (l : List α) (p q : α → Bool)
    (h : ∀ a ∈ l, p a = true → q a = true) :
    (l.filter p).length ≤ (l.filter q).length := by
  induction l with
  | nil => simp
  | cons a l ih =>
    have ih' := ih (fun b hb hpb => h b (List.mem_cons_of_mem a hb) hpb)
    cases hp : p a with
    | false =>
      cases hq : q a with
      | false => simpa [List.filter_cons, hp, hq] using ih'
      | true =>
        simp [List.filter_cons, hp, hq]
        omega
    | true =>
      have hq : q a = true := h a (List.mem_cons_self a l) hp
      simpa [List.filter_cons, hp, hq] using ih'

/-- C2 (amended): for every month's cross-section, a symbol with a defined
score is placed in the low-momentum exclusion set of a horizon if and only if
its score is strictly below the 15th-percentile threshold (the
linear-interpolation quantile over the defined values of that month); a
symbol whose score exactly equals the threshold is not excluded. -/
theorem c2_low_momentum_exclusion (row : List (String × Cell)) (s : String) :
    s ∈ lowMomentumExcluded row ↔
      ∃ v t, (s, some v) ∈ row ∧
        pandasQuantile QUANTILE_LOW_MOMENTUM (definedCells row) = some t ∧ v < t :=
  mem_lowMomentumExcludedQ

/-- Witness instance for C2 at a concrete cross-section. -/
theorem c2_low_momentum_exclusion_witness :
    "a" ∈ lowMomentumExcluded [("a", some 1), ("b", some 2)] ↔
      ∃ v t, ("a", some v) ∈ ([("a", some 1), ("b", some 2)] : List (String × Cell)) ∧
        pandasQuantile QUANTILE_LOW_MOMENTUM
          (definedCells [("a", some 1), ("b", some 2)]) = some t ∧ v < t :=
  c2_low_momentum_exclusion _ "a"

/-- C2 counterexample: with two symbols both scoring 1, the 15th-percentile
threshold is exactly 1; symbol "a" is at (not below) the threshold and is NOT
excluded, refuting the claim's "at or below the threshold is excluded". -/
theorem c2_threshold_not_excluded_cex :
    pandasQuantile QUANTILE_LOW_MOMENTUM
        (definedCells [("a", some 1), ("b", some 1)]) = some 1 ∧
    ("a", some (1 : ℚ)) ∈ ([("a", some 1), ("b", some 1)] : List (String × Cell)) ∧
    lowMomentumExcluded [("a", some 1), ("b", some 1)] = [] := by
  have hd : definedCells ([("a", some 1), ("b", some 1)] : List (String × Cell)) = [1, 1] := by
    simp [definedCells]
  have hfl : ⌊(3 / 20 : ℚ)⌋ = 0 := by norm_num
  have hq : pandasQuantile QUANTILE_LOW_MOMENTUM ([1, 1] : List ℚ) = some 1 := by
    norm_num [pandasQuantile, interpAt, QUANTILE_LOW_MOMENTUM, Int.fract,
      List.insertionSort, List.orderedInsert, hfl]
  refine ⟨by rw [hd]; exact hq, by simp, ?_⟩
  unfold lowMomentumExcluded lowMomentumExcludedQ
  rw [hd, hq]
  norm_num [cellLt]

/-- C9: for a fixed month and cross-section, the low-momentum exclusion is
monotone in the cutoff percentile: for quantile levels `0 ≤ q1 ≤ q2 ≤ 1`,
every symbol excluded at level `q1` is excluded at level `q2`, so the
excluded-symbol count never decreases when the percentile is raised. -/
theorem c9_exclusion_monotone (q1 q2 : ℚ) (row : List (String × Cell)) (s : String)
    (h0 : 0 ≤ q1) (h12 : q1 ≤ q2) (h1 : q2 ≤ 1) :
    (s ∈ lowMomentumExcludedQ q1 row → s ∈ lowMomentumExcludedQ q2 row) ∧
    (lowMomentumExcludedQ q1 row).length ≤ (lowMomentumExcludedQ q2 row).length := by
  cases e1 : pandasQuantile q1 (definedCells row) with
  | none =>
    have hempty : lowMomentumExcludedQ q1 row = [] := by
      unfold lowMomentumExcludedQ
      rw [e1]
    rw [hempty]
    exact ⟨fun hmem => absurd hmem (List.not_mem_nil s), Nat.zero_le _⟩
  | some t1 =>
    obtain ⟨t2, e2⟩ : ∃ t2, pandasQuantile q2 (definedCells row) = some t2 := by
      cases hd : definedCells row with
      | nil => rw [hd] at e1; exact Option.noConfusion e1
      | cons a l => exact ⟨_, rfl⟩
    have hmono : t1 ≤ t2 := pandasQuantile_mono h0 h12 h1 e1 e2
    have hcell : ∀ c : Cell, cellLt c t1 = true → cellLt c t2 = true := by
      intro c hc
      cases c with
      | none => simpa [cellLt] using hc
      | some v =>
        simp only [cellLt, decide_eq_true_eq] at hc ⊢
        exact lt_of_lt_of_le hc hmono
    constructor
    · intro hmem
      rcases mem_lowMomentumExcludedQ.mp hmem with ⟨v, t, hm, ht, hlt⟩
      rw [e1] at ht
      obtain rfl : t1 = t := Option.some_inj.mp ht
      exact mem_lowMomentumExcludedQ.mpr ⟨v, t2, hm, e2, lt_of_lt_of_le hlt hmono⟩
    · unfold lowMomentumExcludedQ
      rw [e1, e2, List.length_map, List.length_map]
      exact length_filter_mono row _ _ (fun a _ hp => hcell a.2 hp)

/-- Witness for C9 at levels 0.15 and 0.30 on a concrete cross-section. -/
theorem c9_exclusion_monotone_witness :
    ((0:ℚ) ≤ 15/100 ∧ (15/100 : ℚ) ≤ 30/100 ∧ (30/100 : ℚ) ≤ 1) ∧
    (("a" ∈ lowMomentumExcludedQ (15/100) [("a", some 1), ("b", some 2), ("c", some 10)] →
        "a" ∈ lowMomentumExcludedQ (30/100) [("a", some 1), ("b", some 2), ("c", some 10)]) ∧
      (lowMomentumExcludedQ (15/100) [("a", some 1), ("b", some 2), ("c", some 10)]).length ≤
        (lowMomentumExcludedQ (30/100) [("a", some 1), ("b", some 2), ("c", some 10)]).length) :=
  ⟨⟨by norm_num, by norm_num, by norm_num⟩,
   c9_exclusion_monotone (15/100) (30/100) [("a", some 1), ("b", some 2), ("c", some 10)] "a"
     (by norm_num) (by norm_num) (by norm_num)⟩

lemma mem_dropna {row : List (String × Cell)} {s : String} {v : ℚ} :
    (s, v) ∈ dropna row ↔ (s, some v) ∈ row := by
  unfold dropna
  rw [List.mem_filterMap]
  constructor
  · rintro ⟨⟨s1, c⟩, hmem, heq⟩
    cases c with
    | none => simp at heq
    | some w =>
      simp only [Option.map_some'] at heq
      obtain ⟨rfl, rfl⟩ : s1 = s ∧ w = v := by
        have := Option.some_inj.mp heq
        exact ⟨congrArg Prod.fst this, congrArg Prod.snd this⟩
      exact hmem
  · intro hmem
    exact ⟨(s, some v), hmem, rfl⟩

lemma fst_eq_of_nodup {row : List (String × Cell)} (hnd : (row.map Prod.fst).Nodup)
    {s : String} {c1 c2 : Cell} (h1 : (s, c1) ∈ row) (h2 : (s, c2) ∈ row) : c1 = c2 := by
  induction row with
  | nil => cases h1
  | cons a l ih =>
    rw [List.map_cons, List.nodup_cons] at hnd
    rcases List.mem_cons.mp h1 with h1e | h1m
    · rcases List.mem_cons.mp h2 with h2e | h2m
      · have h12 : (s, c1) = (s, c2) := h1e.trans h2e.symm
        exact congrArg Prod.snd h12
      · exfalso
        have hmem : s ∈ l.map Prod.fst := List.mem_map.mpr ⟨(s, c2), h2m, rfl⟩
        rw [← h1e] at hnd
        exact hnd.1 hmem
    · rcases List.mem_cons.mp h2 with h2e | h2m
      · exfalso
        have hmem : s ∈ l.map Prod.fst := List.mem_map.mpr ⟨(s, c1), h1m, rfl⟩
        rw [← h2e] at hnd
        exact hnd.1 hmem
      · exact ih hnd.2 h1m h2m

lemma get_top_stocks_length (row : List (String × Cell)) :
    (get_top_stocks row).length = min (eligibleScores row).length MAX_STOCKS := by
  unfold get_top_stocks
  have hp := (List.perm_insertionSort byScore (eligibleScores row)).length_eq
  unfold sortedEligible
  simp only [List.length_map, List.length_drop]
  omega

lemma get_top_stocks_mem {row : List (String × Cell)} {s : String}
    (h : s ∈ get_top_stocks row) : ∃ v, (s, some v) ∈ row ∧ 0 < v := by
  unfold get_top_stocks at h
  simp only [List.mem_map] at h
  obtain ⟨⟨s1, v1⟩, hp, hfst⟩ := h
  dsimp at hfst
  subst hfst
  have hsorted : (s1, v1) ∈ sortedEligible row := List.mem_of_mem_drop hp
  have helig : (s1, v1) ∈ eligibleScores row :=
    (List.perm_insertionSort byScore _).mem_iff.mp hsorted
  rw [eligibleScores, List.mem_filter] at helig
  exact ⟨v1, mem_dropna.mp helig.1, by simpa using helig.2⟩

lemma get_top_stocks_top {row : List (String × Cell)} (hnd : (row.map Prod.fst).Nodup)
    {s t : String} {v w : ℚ} (hs : s ∈ get_top_stocks row) (hv : (s, some v) ∈ row)
    (hw : (t, some w) ∈ row) (hwpos : 0 < w) (ht : t ∉ get_top_stocks row) : w ≤ v := by
  unfold get_top_stocks at hs ht
  simp only [List.mem_map] at hs ht
  obtain ⟨⟨s1, v1⟩, hpdrop, hfst⟩ := hs
  dsimp at hfst
  subst hfst
  have hpsorted : (s1, v1) ∈ sortedEligible row := List.mem_of_mem_drop hpdrop
  have hpelig : (s1, v1) ∈ eligibleScores row :=
    (List.perm_insertionSort byScore _).mem_iff.mp hpsorted
  have hprow : (s1, some v1) ∈ row := by
    rw [eligibleScores, List.mem_filter] at hpelig
    exact mem_dropna.mp hpelig.1
  have hv1 : v1 = v := Option.some_inj.mp (fst_eq_of_nodup hnd hprow hv)
  have htelig : (t, w) ∈ eligibleScores row := by
    rw [eligibleScores, List.mem_filter]
    exact ⟨mem_dropna.mpr hw, by simpa using hwpos⟩
  have htsorted : (t, w) ∈ sortedEligible row :=
    (List.perm_insertionSort byScore _).mem_iff.mpr htelig
  have hpw : List.Pairwise byScore (sortedEligible row) :=
    List.sorted_insertionSort byScore _
  rw [← List.take_append_drop ((sortedEligible row).length - MAX_STOCKS)
    (sortedEligible row)] at htsorted hpw
  rcases List.mem_append.mp htsorted with htake | hdropm
  · have hcross := (List.pairwise_append.mp hpw).2.2 (t, w) htake (s1, v1) hpdrop
    rw [← hv1]
    exact hcross
  · exact absurd ⟨(t, w), hdropm, rfl⟩ ht

/-- C3: for every monthly cross-section row the Selector returns only symbols
whose `score_12` is defined and strictly positive; it returns at most 10
symbols and exactly `min(eligible, 10)` when it selects at all (fewer than 10
eligible symbols yield fewer selections, never an error); every selected
symbol scores at least as high as every unselected eligible symbol; and it
returns the empty set whenever the index close is not strictly above its
150-day moving average. -/
theorem c3_selector (row : IndexMonthRow) (b : Bool)
    (hnd : (row.cells.map Prod.fst).Nodup) :
    (selectMonth row b).length ≤ MAX_STOCKS ∧
    (∀ s ∈ selectMonth row b, ∃ v, (s, some v) ∈ row.cells ∧ 0 < v) ∧
    (regimeGate row = false → selectMonth row b = []) ∧
    (regimeGate row = true → b = false →
      (selectMonth row b).length = min (eligibleScores row.cells).length MAX_STOCKS) ∧
    (∀ s v t w, s ∈ selectMonth row b → (s, some v) ∈ row.cells →
      (t, some w) ∈ row.cells → 0 < w → t ∉ selectMonth row b → w ≤ v) := by
  cases hgate : regimeGate row && !b with
  | false =>
    have hsel : selectMonth row b = [] := by
      unfold selectMonth
      rw [hgate]
      simp
    rw [hsel]
    refine ⟨by simp, by simp, fun _ => rfl, ?_, by simp⟩
    intro hr hb
    rw [hr, hb] at hgate
    simp at hgate
  | true =>
    have hsel : selectMonth row b = get_top_stocks row.cells := by
      unfold selectMonth
      rw [hgate]
      simp
    rw [hsel]
    refine ⟨?_, ?_, ?_, ?_, ?_⟩
    · rw [get_top_stocks_length]
      exact min_le_right _ _
    · exact fun s hsm => get_top_stocks_mem hsm
    · intro hr
      rw [hr] at hgate
      simp at hgate
    · intro _ _
      exact get_top_stocks_length row.cells
    · intro s v t w hs hv hw hwpos ht
      exact get_top_stocks_top hnd hs hv hw hwpos ht

/-- Witness for C3 at a concrete four-symbol row with the gate passing. -/
theorem c3_selector_witness :
    (sampleRow.cells.map Prod.fst).Nodup ∧
    ((selectMonth sampleRow false).length ≤ MAX_STOCKS ∧
     (∀ s ∈ selectMonth sampleRow false, ∃ v, (s, some v) ∈ sampleRow.cells ∧ 0 < v) ∧
     (regimeGate sampleRow = false → selectMonth sampleRow false = []) ∧
     (regimeGate sampleRow = true → false = false →
       (selectMonth sampleRow false).length =
         min (eligibleScores sampleRow.cells).length MAX_STOCKS) ∧
     (∀ s v t w, s ∈ selectMonth sampleRow false → (s, some v) ∈ sampleRow.cells →
       (t, some w) ∈ sampleRow.cells → 0 < w → t ∉ selectMonth sampleRow false → w ≤ v)) :=
  ⟨by decide, c3_selector sampleRow false (by decide)⟩

lemma screenerScore_last (closes changes : List ℚ) (h : ℕ) :
    screenerScore closes changes h (changes.length - 1) = none := by
  have hd : shiftUp (rollingSumAt changes h) changes.length (changes.length - 1) = none := by
    unfold shiftUp
    rw [if_neg (show ¬(changes.length - 1 + 1 < changes.length) by omega)]
  unfold screenerScore
  rw [hd]
  unfold whereScore
  simp [cellPos]

lemma screenerScoreCol_getLast (s : MonthlySeries) (h : ℕ) (hne : s.months ≠ [])
    (hlen : s.months.length = s.changes.length) :
    (screenerScoreCol s h).getLast? = some none := by
  unfold screenerScoreCol
  obtain ⟨k, hk⟩ : ∃ k, s.months.length = k + 1 := by
    cases hm : s.months with
    | nil => exact absurd hm hne
    | cons a l => exact ⟨l.length, by simp [hm]⟩
  rw [hk, List.range_succ, List.map_append, List.map_singleton, List.getLast?_concat]
  congr 1
  have hk2 : k = s.changes.length - 1 := by omega
  rw [hk2]
  exact screenerScore_last _ _ _

lemma lookupMonth_last_none (M : ℕ) :
    ∀ (months : List ℕ) (vals : List Cell),
      months.Pairwise (· < ·) → (∀ x ∈ months, x ≤ M) →
      months.length = vals.length →
      (months ≠ [] → vals.getLast? = some none) →
      lookupMonth months vals M = none := by
  intro months
  induction months with
  | nil =>
    intro vals _ _ _ _
    cases vals with
    | nil => rfl
    | cons v vs => rfl
  | cons m ms ih =>
    intro vals hsorted hle hlen hlast
    cases vals with
    | nil => simp at hlen
    | cons v vs =>
      by_cases hM : m = M
      · have hms : ms = [] := by
          cases hmm : ms with
          | nil => rfl
          | cons a l =>
            exfalso
            have h1 : m < a := (List.pairwise_cons.mp hsorted).1 a
              (by rw [hmm]; exact List.mem_cons_self a l)
            have h2 : a ≤ M := hle a
              (by rw [hmm]; exact List.mem_cons_of_mem m (List.mem_cons_self a l))
            omega
        have hvs : vs = [] := by
          rw [hms] at hlen
          simpa using List.eq_nil_of_length_eq_zero (by simpa using hlen.symm)
        have hv : v = none := by
          have := hlast (by simp)
          rw [hvs] at this
          simpa using this
        simp [lookupMonth, hM, hv]
      · have hrec := ih vs (List.Pairwise.of_cons hsorted)
          (fun x hx => hle x (List.mem_cons_of_mem m hx)) (by simpa using hlen)
          (fun hne2 => by
            cases hvv : vs with
            | nil =>
              exfalso
              rw [hvv] at hlen
              simp at hlen
              exact hne2 hlen
            | cons b bs =>
              have := hlast (by simp)
              rw [hvv] at this
              rw [← this]
              exact List.getLast?_cons_cons.symm)
        simp [lookupMonth, hM, hrec]

lemma screenerScoreAt_last (s : MonthlySeries) (M : ℕ)
    (hsorted : s.months.Pairwise (· < ·)) (hle : ∀ x ∈ s.months, x ≤ M)
    (hlen : s.months.length = s.changes.length) :
    screenerScoreAt s M = none := by
  unfold screenerScoreAt
  apply lookupMonth_last_none M s.months (screenerScoreCol s 12) hsorted hle
  · unfold screenerScoreCol
    rw [List.length_map, List.length_range]
  · exact fun hne => screenerScoreCol_getLast s 12 hne hlen

lemma get_top_stocks_all_none {row : List (String × Cell)}
    (h : ∀ p ∈ row, p.2 = none) : get_top_stocks row = [] := by
  have hd : dropna row = [] := by
    rw [dropna, List.filterMap_eq_nil_iff]
    intro p hp
    rw [h p hp]
    rfl
  unfold get_top_stocks sortedEligible eligibleScores
  rw [hd]
  simp

/-- C4: in the screener, every symbol's trailing direction count — and hence
its `score_h` for every horizon — is undefined at the chronologically last
row of its monthly series, because the rolling sum is shifted one month
earlier; consequently the next-month selection computed from the most recent
cross-section row is empty, so the diff's added set is empty and its removed
set equals the whole current selection. -/
theorem c4_screener_next_month_empty (stocks : List (String × MonthlySeries)) (M : ℕ)
    (current : List String)
    (hwf : ∀ p ∈ stocks, p.2.months.Pairwise (· < ·) ∧ (∀ x ∈ p.2.months, x ≤ M) ∧
      p.2.months.length = p.2.changes.length) :
    (∀ p ∈ stocks, ∀ h,
      screenerScore p.2.closes p.2.changes h (p.2.changes.length - 1) = none) ∧
    (∀ p ∈ stocks, screenerScoreAt p.2 M = none) ∧
    get_top_stocks (stocks.map (fun p => (p.1, screenerScoreAt p.2 M))) = [] ∧
    addedStocks current (get_top_stocks (stocks.map (fun p => (p.1, screenerScoreAt p.2 M)))) = [] ∧
    removedStocks current (get_top_stocks (stocks.map (fun p => (p.1, screenerScoreAt p.2 M)))) =
      current := by
  have hnone : ∀ p ∈ stocks, screenerScoreAt p.2 M = none := fun p hp =>
    screenerScoreAt_last p.2 M (hwf p hp).1 (hwf p hp).2.1 (hwf p hp).2.2
  have hsel : get_top_stocks (stocks.map (fun p => (p.1, screenerScoreAt p.2 M))) = [] := by
    apply get_top_stocks_all_none
    intro q hq
    rw [List.mem_map] at hq
    obtain ⟨p, hp, rfl⟩ := hq
    exact hnone p hp
  refine ⟨fun p _ h => screenerScore_last _ _ _, hnone, hsel, ?_, ?_⟩
  · rw [hsel]
    rfl
  · rw [hsel]
    unfold removedStocks
    apply List.filter_eq_self.mpr
    intro a _
    simp

/-- Witness for C4 at a concrete one-symbol universe whose last month is 1. -/
theorem c4_screener_next_month_empty_witness :
    (∀ p ∈ sampleStocks, p.2.months.Pairwise (· < ·) ∧ (∀ x ∈ p.2.months, x ≤ 1) ∧
      p.2.months.length = p.2.changes.length) ∧
    ((∀ p ∈ sampleStocks, ∀ h,
        screenerScore p.2.closes p.2.changes h (p.2.changes.length - 1) = none) ∧
     (∀ p ∈ sampleStocks, screenerScoreAt p.2 1 = none) ∧
     get_top_stocks (sampleStocks.map (fun p => (p.1, screenerScoreAt p.2 1))) = [] ∧
     addedStocks ["msft"]
       (get_top_stocks (sampleStocks.map (fun p => (p.1, screenerScoreAt p.2 1)))) = [] ∧
     removedStocks ["msft"]
       (get_top_stocks (sampleStocks.map (fun p => (p.1, screenerScoreAt p.2 1)))) = ["msft"]) :=
  ⟨by decide, c4_screener_next_month_empty sampleStocks 1 ["msft"] (by decide)⟩

lemma filter_month_pairwise {rows : List DailyRow} (m : ℕ)
    (hsorted : rows.Pairwise (fun a b => a.date < b.date)) :
    (rows.filter (fun r => decide (r.month = m))).Pairwise (fun a b => a.date < b.date) :=
  hsorted.filter _

lemma head_min_of_pairwise {r : DailyRow} {rs : List DailyRow}
    (hp : (r :: rs).Pairwise (fun a b => a.date < b.date)) :
    ∀ x ∈ r :: rs, r.date ≤ x.date := by
  intro x hx
  rcases List.mem_cons.mp hx with rfl | hx2
  · exact le_refl _
  · exact le_of_lt ((List.pairwise_cons.mp hp).1 x hx2)

lemma getLast_max_of_pairwise {l : List DailyRow} (hne : l ≠ [])
    (hp : l.Pairwise (fun a b => a.date < b.date)) :
    ∀ x ∈ l, x.date ≤ (l.getLast hne).date := by
  intro x hx
  have hdecomp := List.dropLast_append_getLast hne
  rw [← hdecomp] at hp hx
  rcases List.mem_append.mp hx with hx1 | hx2
  · exact le_of_lt ((List.pairwise_append.mp hp).2.2 x hx1 (l.getLast hne)
      (List.mem_singleton_self _))
  · rw [List.mem_singleton.mp hx2]

/-- C8 (amended): when the daily input rows are in chronological (strictly
increasing date) order — as the upstream daily pipeline produces them — every
emitted monthly row has `open` equal to the chronologically first trading
day's open and `close` equal to the chronologically last trading day's
close.  The unrestricted claim fails: the aggregation reads groups in
dataframe row order, so the result DOES depend on the row order of the input
(see the counterexample). -/
theorem c8_resampler_first_last (rows : List DailyRow)
    (hsorted : rows.Pairwise (fun a b => a.date < b.date)) :
    ∀ mr ∈ resample_stocks_to_month rows,
      (∃ r ∈ rows, r.month = mr.month ∧ mr.Open = r.Open ∧
        ∀ x ∈ rows, x.month = mr.month → r.date ≤ x.date) ∧
      (∃ r ∈ rows, r.month = mr.month ∧ mr.Close = r.Close ∧
        ∀ x ∈ rows, x.month = mr.month → x.date ≤ r.date) := by
  intro mr hmr
  unfold resample_stocks_to_month at hmr
  rw [List.mem_filterMap] at hmr
  obtain ⟨m, _, hagg⟩ := hmr
  unfold aggMonth at hagg
  revert hagg
  split
  case h_1 => intro hagg; exact Option.noConfusion hagg
  case h_2 r rs hg =>
    intro hagg
    obtain rfl : _ = mr := Option.some_inj.mp hagg
    have hpg : (r :: rs).Pairwise (fun a b => a.date < b.date) := by
      rw [← hg]
      exact filter_month_pairwise m hsorted
    have hsub : ∀ x ∈ r :: rs, x ∈ rows ∧ x.month = m := by
      intro x hx
      rw [← hg] at hx
      have hx2 := List.mem_filter.mp hx
      exact ⟨hx2.1, by simpa using hx2.2⟩
    have hall : ∀ x ∈ rows, x.month = m → x ∈ r :: rs := by
      intro x hx hxm
      rw [← hg, List.mem_filter]
      exact ⟨hx, by simpa using hxm⟩
    constructor
    · refine ⟨r, (hsub r (List.mem_cons_self r rs)).1,
        (hsub r (List.mem_cons_self r rs)).2, rfl, ?_⟩
      intro x hx hxm
      exact head_min_of_pairwise hpg x (hall x hx hxm)
    · refine ⟨(r :: rs).getLast (List.cons_ne_nil r rs),
        (hsub _ (List.getLast_mem _)).1, (hsub _ (List.getLast_mem _)).2, rfl, ?_⟩
      intro x hx hxm
      exact getLast_max_of_pairwise (List.cons_ne_nil r rs) hpg x (hall x hx hxm)

/-- C8 counterexample: the same two rows fed in reversed (non-chronological)
order produce a monthly `open` of 20 — the open of the chronologically LAST
day (date 2) rather than of the chronologically first day (date 1, open 10) —
so the resampler's output is not invariant under permutations of the input
rows, refuting the claim's "for any permutation of the input rows". -/
theorem c8_row_order_dependence_cex :
    [dayB, dayA].Perm [dayA, dayB] ∧
    dayA.date < dayB.date ∧ dayA.month = 0 ∧ dayB.month = 0 ∧
    dayA.Open = 10 ∧
    (resample_stocks_to_month [dayA, dayB]).map (fun r => r.Open) = [10] ∧
    (resample_stocks_to_month [dayB, dayA]).map (fun r => r.Open) = [20] := by
  decide

/-- Witness for C8 on the chronologically ordered two-row input. -/
theorem c8_resampler_first_last_witness :
    ([dayA, dayB].Pairwise (fun a b => a.date < b.date)) ∧
    (∀ mr ∈ resample_stocks_to_month [dayA, dayB],
      (∃ r ∈ [dayA, dayB], r.month = mr.month ∧ mr.Open = r.Open ∧
        ∀ x ∈ [dayA, dayB], x.month = mr.month → r.date ≤ x.date) ∧
      (∃ r ∈ [dayA, dayB], r.month = mr.month ∧ mr.Close = r.Close ∧
        ∀ x ∈ [dayA, dayB], x.month = mr.month → x.date ≤ r.date)) :=
  ⟨by decide, c8_resampler_first_last [dayA, dayB] (by decide)⟩

lemma maskedAt_cons_mem {tbl : Option (List (ℕ × List String))} {m : ℕ} {ms : List ℕ}
    {sym : String} {members : List String} (M : ℕ)
    (hg : get_symbols tbl m = some members) (hmem : sym ∈ members) :
    maskedAt tbl (m :: ms) sym M = maskedAt tbl ms sym M := by
  unfold maskedAt
  by_cases hM : M = m
  · subst hM
    rw [hg]
    simp [hmem]
  · simp [List.mem_cons, hM]

lemma maskedAt_cons_self {tbl : Option (List (ℕ × List String))} {m : ℕ} {ms : List ℕ}
    {sym : String} {members : List String}
    (hg : get_symbols tbl m = some members) (hmem : sym ∉ members) :
    maskedAt tbl (m :: ms) sym m = true := by
  unfold maskedAt
  rw [hg]
  simp [hmem]

lemma maskedAt_cons_ne {tbl : Option (List (ℕ × List String))} {m : ℕ} {ms : List ℕ}
    {sym : String} {M : ℕ} (hM : M ≠ m) :
    maskedAt tbl (m :: ms) sym M = maskedAt tbl ms sym M := by
  unfold maskedAt
  simp [List.mem_cons, hM]

/-- C5 (the code, evaluated at the claim's situation): with no membership
snapshot file loaded, the very first index month already sends the
restriction loop into the `TypeError` branch — the run fails instead of
skipping the Universe Restrictor with every symbol eligible. -/
theorem c5_missing_table_crashes (m : ℕ) (ms : List ℕ) (sym : String)
    (rows : List ScoredRow) :
    restrictSymbol none (m :: ms) sym rows =
      Except.error "TypeError: NoneType object is not iterable" := rfl

/-- C7: whenever the restriction loop for a symbol completes, the output has
one row per input row; a row is masked — `beta` and all four `changes_h`
cells set to undefined — exactly when its month is an index month whose
membership does not contain the symbol, and every other row (other months of
a non-member symbol, and all rows of member symbols) is returned unchanged. -/
theorem c7_restrictor_frame (tbl : Option (List (ℕ × List String))) (months : List ℕ)
    (sym : String) (rows out : List ScoredRow)
    (hok : restrictSymbol tbl months sym rows = Except.ok out) :
    out.length = rows.length ∧
    ∀ i, i < rows.length →
      out.getD i default =
        (if maskedAt tbl months sym ((rows.getD i default).month)
         then maskRow (rows.getD i default) else rows.getD i default) := by
  induction months generalizing rows out with
  | nil =>
    obtain rfl : rows = out := by simpa [restrictSymbol] using hok
    refine ⟨rfl, ?_⟩
    intro i hi
    have hfalse : maskedAt tbl [] sym ((rows.getD i default).month) = false := by
      simp [maskedAt]
    rw [hfalse]
    simp
  | cons m ms ih =>
    rw [restrictSymbol] at hok
    revert hok
    cases hg : get_symbols tbl m with
    | none =>
      intro hok
      exact Except.noConfusion hok
    | some members =>
      intro hok
      obtain ⟨hlen, hch⟩ := ih (restrictMonth members sym m rows) out hok
      have hlen1 : (restrictMonth members sym m rows).length = rows.length := by
        unfold restrictMonth
        by_cases hmem : sym ∈ members
        · rw [if_pos hmem]
        · rw [if_neg hmem, List.length_map]
      refine ⟨by rw [hlen, hlen1], ?_⟩
      intro i hi
      have hi1 : i < (restrictMonth members sym m rows).length := by rw [hlen1]; exact hi
      have hout := hch i (by rw [hlen1]; exact hi)
      by_cases hmem : sym ∈ members
      · have hr1 : restrictMonth members sym m rows = rows := by
          unfold restrictMonth
          rw [if_pos hmem]
        rw [hr1] at hout
        rw [hout, maskedAt_cons_mem _ hg hmem]
      · have hr1 : (restrictMonth members sym m rows).getD i default =
            (if (rows.getD i default).month = m then maskRow (rows.getD i default)
             else rows.getD i default) := by
          unfold restrictMonth
          rw [if_neg hmem]
          rw [List.getD_eq_getElem _ _ (by rw [List.length_map]; exact hi),
            List.getElem_map, ← List.getD_eq_getElem _ _ hi]
        by_cases hm0 : (rows.getD i default).month = m
        · rw [hm0] at hr1
          rw [if_pos rfl] at hr1
          rw [hr1] at hout
          have hmask : maskedAt tbl (m :: ms) sym ((rows.getD i default).month) = true := by
            rw [hm0]
            exact maskedAt_cons_self hg hmem
          rw [hmask, if_pos rfl]
          rw [hout]
          split <;> rfl
        · rw [if_neg hm0] at hr1
          rw [hr1] at hout
          rw [hout, maskedAt_cons_ne hm0]

/-- Witness for C7 on a two-month run where the symbol is a member in month 3
but not in month 7. -/
theorem c7_restrictor_frame_witness :
    restrictSymbol (some memberTable) [3, 7] "aapl" memberRows = Except.ok memberOut ∧
    (memberOut.length = memberRows.length ∧
     ∀ i, i < memberRows.length →
       memberOut.getD i default =
         (if maskedAt (some memberTable) [3, 7] "aapl" ((memberRows.getD i default).month)
          then maskRow (memberRows.getD i default) else memberRows.getD i default)) :=
  ⟨rfl, c7_restrictor_frame (some memberTable) [3, 7] "aapl" memberRows memberOut rfl⟩

/-- C6 (the code, evaluated at the claim's situation): with bar data present
the position is sized `shares = int(10000/25) = 400`; but adding a selection
whose execution month (6) has no bars leaves its `buy` cell NaN, and the
unguarded `astype(int)` raises — the run fails instead of silently dropping
that one position. -/
theorem c6_lookup_miss_fails :
    simulate sampleBars [(5, "aapl")] = Except.ok [(5, "aapl", 400, 10000, 12000)] ∧
    simulate sampleBars [(5, "aapl"), (6, "aapl")] = Except.error "IntCastingNaNError" := by
  constructor
  · have hdiv : (10000 : ℚ) / 25 = 400 := by norm_num
    have hast : astypeInt 400 = 400 := rfl
    simp [simulate, fillPosition, monthBar, findBars, sampleBars, hdiv, hast]
    norm_num
  · simp [simulate, fillPosition, monthBar, findBars, sampleBars]

/-- C10: for every requested symbol list and whatever bars the data source
returns — including usable bars for "googl" itself — the price-loading step
removes "googl" from its returned mapping, so it can never reach the later
scoring, selection or simulation stages, which all read this mapping. -/
theorem c10_googl_removed (raw : List (String × List RawBar)) :
    "googl" ∉ (get_stocks raw).map Prod.fst := by
  intro hmem
  rw [List.mem_map] at hmem
  obtain ⟨p, hp, hfst⟩ := hmem
  rw [get_stocks, List.mem_filter] at hp
  have hne := hp.2
  rw [hfst] at hne
  simp at hne

/-- Witness instance for C10: even when the source returns a clean, usable
bar for "GOOGL", the symbol is absent from the mapping. -/
theorem c10_googl_removed_witness :
    "googl" ∉ (get_stocks [("GOOGL", [⟨some 1, some 3, some 2, some 2⟩])]).map Prod.fst :=
  c10_googl_removed [("GOOGL", [⟨some 1, some 3, some 2, some 2⟩])]

end MonthlyTrader
